import Mathlib

/-!
Shallow embedding of the DNS server (src/main.rs, src/parser.rs, src/record.rs).

Bytes are modelled as `Nat`; theorems that depend on machine-width behaviour
carry explicit `< 256` hypotheses, and the source's `as u8` / `as u16` casts
are rendered as `% 256` / `% 65536`.  Rust `String`s (domain-name labels, TXT
content) are modelled as their raw byte sequences (`List Nat`): the parser's
`String::from_utf8_lossy` is abstracted to the byte content it decodes, which
is the identity on valid UTF-8.  Parsers follow nom's combinators: a parser
takes an input byte list and returns `none` (parse error) or
`some (remaining, value)`.
-/

/-- One domain-name label, as its raw bytes. -/
abbrev Label := List Nat

/-- A domain name is an ordered label sequence, most-specific first. -/
abbrev DName := List Label

/-- `parser.rs` `OpCode`: the opcodes accepted by the header parser. -/
inductive OpCode where
  | Query
  | IQuery
  | Status
deriving DecidableEq, Repr

/-- `OpCode` numeric values (`#[repr(u8)]`), used when re-emitting the opcode. -/
def OpCode.val : OpCode → Nat
  | .Query => 0
  | .IQuery => 1
  | .Status => 2

/-- `TryFromPrimitive` for `OpCode`: only 0, 1, 2 convert. -/
def OpCode.ofNat? : Nat → Option OpCode
  | 0 => some .Query
  | 1 => some .IQuery
  | 2 => some .Status
  | _ => none

/-- `parser.rs` `Type`: the closed record-type enumeration. -/
inductive Ty where
  | A
  | NS
  | CNAME
  | SOA
  | PTR
  | MX
  | TXT
  | AAAA
  | OPT
  | AXFR
  | ANY
deriving DecidableEq, Repr

/-- `Type` numeric codes (`#[repr(u16)]`). -/
def Ty.val : Ty → Nat
  | .A => 1
  | .NS => 2
  | .CNAME => 5
  | .SOA => 6
  | .PTR => 12
  | .MX => 15
  | .TXT => 16
  | .AAAA => 28
  | .OPT => 41
  | .AXFR => 252
  | .ANY => 255

/-- `TryFromPrimitive` for `Type`: unrecognized codes fail. -/
def Ty.ofNat? : Nat → Option Ty
  | 1 => some .A
  | 2 => some .NS
  | 5 => some .CNAME
  | 6 => some .SOA
  | 12 => some .PTR
  | 15 => some .MX
  | 16 => some .TXT
  | 28 => some .AAAA
  | 41 => some .OPT
  | 252 => some .AXFR
  | 255 => some .ANY
  | _ => none

/-- `Type::need_recursive`: the delegation-relevant types (NS and SOA). -/
def Ty.needRecursive : Ty → Bool
  | .NS => true
  | .SOA => true
  | _ => false

/-- `parser.rs` `Name`: decoded labels plus the optional unresolved
compression-pointer field (the full 16-bit value, as stored by the source). -/
structure Name where
  labels : DName
  ptr : Option Nat
deriving DecidableEq, Repr

/-- `parser.rs` `Question` (QCLASS is consumed and discarded by the parser). -/
structure Question where
  name : Name
  ty : Ty
deriving DecidableEq, Repr

/-- `parser.rs` `RR` (CLASS is consumed and discarded by the parser). -/
structure RR where
  name : Name
  ty : Ty
  ttl : Nat
  rdata : List Nat
deriving DecidableEq, Repr

/-- `parser.rs` `ReqHeaderStatus`. -/
structure ReqHeaderStatus where
  qr : Bool
  opcode : OpCode
  rd : Bool
  ad : Bool
  cd : Bool
deriving DecidableEq, Repr

/-- `parser.rs` `ReqHeader`. -/
structure ReqHeader where
  id : Nat
  status : ReqHeaderStatus
  qdcnt : Nat
  arcnt : Nat
deriving DecidableEq, Repr

/-- `parser.rs` `Req`. -/
structure Req where
  header : ReqHeader
  questions : List Question
  additionals : List RR
deriving DecidableEq, Repr

/-- A nom-style parser over bytes: `none` on error, else remaining input and
the parsed value. -/
abbrev P (α : Type) := List Nat → Option (List Nat × α)

/-- nom `be_u8`. -/
def be_u8p : P Nat
  | b :: rest => some (rest, b)
  | [] => none

/-- nom `be_u16` (big-endian, two bytes). -/
def be_u16p : P Nat
  | a :: b :: rest => some (rest, a * 256 + b)
  | _ => none

/-- nom `be_u32` (big-endian, four bytes). -/
def be_u32p : P Nat
  | a :: b :: c :: d :: rest =>
      some (rest, ((a * 256 + b) * 256 + c) * 256 + d)
  | _ => none

/-- nom `take(n)`. -/
def takeP (n : Nat) : P (List Nat) := fun input =>
  if n ≤ input.length then some (input.drop n, input.take n) else none

/-- nom `tag(b"\x7b00,00\x7d")` as used in `parse_header`: two zero bytes. -/
def tag00 : P Unit
  | 0 :: 0 :: rest => some (rest, ())
  | _ => none

/-- `parser.rs` `parse_header_status`: bit-level decode of the two flag bytes.
Byte 1 is QR(1) OPCODE(4) AA(1) TC(1) RD(1); byte 2 is RA(1) Z(1) AD(1) CD(1)
RCODE(4).  The AA+TC pair, the RA+Z pair, and RCODE are matched against zero,
and the opcode must convert via `OpCode.ofNat?`. -/
def parse_header_status : P ReqHeaderStatus
  | b1 :: b2 :: rest =>
    if b1 / 2 % 4 = 0 ∧ b2 / 64 % 4 = 0 ∧ b2 % 16 = 0 then
      match OpCode.ofNat? (b1 / 8 % 16) with
      | some op =>
          some (rest, ⟨b1 / 128 % 2 != 0, op, b1 % 2 != 0,
                       b2 / 32 % 2 != 0, b2 / 16 % 2 != 0⟩)
      | none => none
    else none
  | _ => none

/-- `parser.rs` `parse_header`: id, status, QDCOUNT, two zero-tagged u16
fields (ANCOUNT, NSCOUNT), ARCOUNT. -/
def parse_header : P ReqHeader := fun input =>
  match be_u16p input with
  | none => none
  | some (i1, id) =>
    match parse_header_status i1 with
    | none => none
    | some (i2, status) =>
      match be_u16p i2 with
      | none => none
      | some (i3, qdcnt) =>
        match tag00 i3 with
        | none => none
        | some (i4, _) =>
          match tag00 i4 with
          | none => none
          | some (i5, _) =>
            match be_u16p i5 with
            | none => none
            | some (i6, arcnt) => some (i6, ⟨id, status, qdcnt, arcnt⟩)

/-- `parser.rs` `parse_label`: one length byte, then that many raw bytes. -/
def parse_label : P Label := fun input =>
  match be_u8p input with
  | none => none
  | some (i1, cnt) =>
    match takeP cnt i1 with
    | none => none
    | some (i2, bytes) => some (i2, bytes)

/-- `parser.rs` `parse_ptr`: the name terminator.  Either a single zero byte
(no pointer), or a big-endian u16 whose top two bits are 11, stored whole. -/
def parse_ptr : P (Option Nat)
  | 0 :: rest => some (rest, none)
  | a :: b :: rest =>
      if (a * 256 + b) / 16384 = 3 then some (rest, some (a * 256 + b))
      else none
  | _ => none

/-- `parser.rs` `parse_name` = `many_till(parse_label, parse_ptr)`, written
with explicit fuel so that it is structurally recursive; each successful
label consumes at least one byte, so `input.length + 1` fuel always
suffices (`parse_name` below). -/
def parseNameF : Nat → P Name
  | 0, _ => none
  | fuel + 1, input =>
    match parse_ptr input with
    | some (rest, p) => some (rest, ⟨[], p⟩)
    | none =>
      match parse_label input with
      | some (rest, lab) =>
        match parseNameF fuel rest with
        | some (rest2, nm) => some (rest2, ⟨lab :: nm.labels, nm.ptr⟩)
        | none => none
      | none => none

/-- `parser.rs` `parse_name`. -/
def parse_name : P Name := fun input => parseNameF (input.length + 1) input

/-- nom-derived `Type::parse`: a big-endian u16 converted via `Ty.ofNat?`. -/
def parse_type : P Ty := fun input =>
  match be_u16p input with
  | none => none
  | some (i1, v) =>
    match Ty.ofNat? v with
    | some ty => some (i1, ty)
    | none => none

/-- `parser.rs` `parse_question`: name, type, discarded class. -/
def parse_question : P Question := fun input =>
  match parse_name input with
  | none => none
  | some (i1, name) =>
    match parse_type i1 with
    | none => none
    | some (i2, ty) =>
      match be_u16p i2 with
      | none => none
      | some (i3, _cls) => some (i3, ⟨name, ty⟩)

/-- `parser.rs` `parse_rr`: name, type, discarded class, TTL, then a
length-prefixed opaque rdata. -/
def parse_rr : P RR := fun input =>
  match parse_name input with
  | none => none
  | some (i1, name) =>
    match parse_type i1 with
    | none => none
    | some (i2, ty) =>
      match be_u16p i2 with
      | none => none
      | some (i3, _cls) =>
        match be_u32p i3 with
        | none => none
        | some (i4, ttl) =>
          match be_u16p i4 with
          | none => none
          | some (i5, len) =>
            match takeP len i5 with
            | none => none
            | some (i6, rdata) => some (i6, ⟨name, ty, ttl, rdata⟩)

/-- nom `count(p, n)`: exactly `n` applications of `p`. -/
def countP (p : P α) : Nat → P (List α)
  | 0 => fun input => some (input, [])
  | n + 1 => fun input =>
      match p input with
      | none => none
      | some (i1, x) =>
        match countP p n i1 with
        | none => none
        | some (i2, xs) => some (i2, x :: xs)

/-- `parser.rs` `parse_request`: header, QDCOUNT questions, ARCOUNT
additional records. -/
def parse_request : P Req := fun input =>
  match parse_header input with
  | none => none
  | some (i1, hdr) =>
    match countP parse_question hdr.qdcnt i1 with
    | none => none
    | some (i2, questions) =>
      match countP parse_rr hdr.arcnt i2 with
      | none => none
      | some (i3, additionals) => some (i3, ⟨hdr, questions, additionals⟩)

/-- `parser.rs` `parse` = `parse_request` followed by `eof`: the input must
be fully consumed. -/
def parse : P Req := fun input =>
  match parse_request input with
  | some ([], req) => some ([], req)
  | _ => none

/-- `record.rs` `RecordInner`: the tagged record payloads.  Fixed-size Rust
arrays (`[u8; 4]`, `[u8; 16]`) and strings are modelled as byte lists. -/
inductive RecordInner where
  | SOA (serial : Nat) (mname rname : DName)
        (refresh retry expire minimum : Nat)
  | NS (ns : DName)
  | A (addr : List Nat)
  | AAAA (addr : List Nat)
  | CNAME (tgt : DName)  -- source field `to` (a Lean keyword)
  | TXT (content : List Nat)
deriving DecidableEq, Repr

/-- `RecordInner::ty`. -/
def RecordInner.ty : RecordInner → Ty
  | .SOA _ _ _ _ _ _ _ => .SOA
  | .NS _ => .NS
  | .A _ => .A
  | .AAAA _ => .AAAA
  | .CNAME _ => .CNAME
  | .TXT _ => .TXT

/-- `record.rs` `Record`: a payload plus its TTL. -/
structure Record where
  inner : RecordInner
  ttl : Nat
deriving DecidableEq, Repr

/-- Big-endian bytes of a u16 (`to_be_bytes`). -/
def u16be (n : Nat) : List Nat := [n / 256 % 256, n % 256]

/-- Big-endian bytes of a u32 (`to_be_bytes`). -/
def u32be (n : Nat) : List Nat :=
  [n / 16777216 % 256, n / 65536 % 256, n / 256 % 256, n % 256]

/-- `record.rs` `serialize_name`: each label as a length byte (`len as u8`,
hence `% 256`) followed by its bytes, terminated by a zero byte. -/
def serialize_name (segs : DName) : List Nat :=
  (segs.map fun seg => (seg.length % 256) :: seg).flatten ++ [0]

/-- `RecordInner::serialize`: the type-specific rdata bytes. -/
def RecordInner.serialize : RecordInner → List Nat
  | .SOA serial mname rname refresh retry expire minimum =>
      serialize_name mname ++ serialize_name rname ++ u32be serial ++
      u32be refresh ++ u32be retry ++ u32be expire ++ u32be minimum
  | .NS ns => serialize_name ns
  | .A addr => addr
  | .AAAA addr => addr
  | .CNAME tgt => serialize_name tgt
  | .TXT content => content

/-- `Record::serialize`: type code, class IN, TTL, rdata length
(`len as u16`, hence `% 65536`), rdata. -/
def Record.serialize (r : Record) : List Nat :=
  u16be r.inner.ty.val ++ [0, 1] ++ u32be r.ttl ++
  u16be (r.inner.serialize.length % 65536) ++ r.inner.serialize

/-- `main.rs` `BaseStorage`: the zone database, modelled as an association
list from a domain name to its records (`HashMap::get` becomes the first
association-list hit; zone keys are unique). -/
abbrev Storage := List (DName × List Record)

/-- `RecordStorage::query_all`: the records stored under exactly `segs`
(empty when the name is absent). -/
def query_all (st : Storage) (segs : DName) : List Record :=
  (st.lookup segs).getD []

/-- `RecordStorage::query`: filter the exact-match records by type; if none
match, the type is delegation-relevant, and more than one label remains,
retry with the first label stripped.  Returns the matched suffix (scope)
together with the records found there. -/
def query (st : Storage) : DName → Ty → DName × List Record
  | [], ty => ([], (query_all st []).filter fun r => r.inner.ty == ty)
  | seg :: rest, ty =>
    if ((query_all st (seg :: rest)).filter fun r => r.inner.ty == ty) = [] ∧
        ty.needRecursive = true ∧ 1 < (seg :: rest).length then
      query st rest ty
    else
      (seg :: rest, (query_all st (seg :: rest)).filter fun r => r.inner.ty == ty)

/-- `main.rs` `Rcode`. -/
inductive Rcode where
  | OK
  | Format
  | Internal
  | Name
  | NotImpl
  | Refused
deriving DecidableEq, Repr

/-- `Rcode` numeric values (`#[repr(u8)]`). -/
def Rcode.val : Rcode → Nat
  | .OK => 0
  | .Format => 1
  | .Internal => 2
  | .Name => 3
  | .NotImpl => 4
  | .Refused => 5

/-- The flag byte written by `write_resp_header`:
`0x80 | opcode << 3 | AA | RD`.  The or-ed fields occupy disjoint bit
ranges, so the bitwise ors are written as sums. -/
def flagByte (op : OpCode) (isAA rd : Bool) : Nat :=
  128 + op.val * 8 + (if isAA then 4 else 0) + (if rd then 1 else 0)

/-- `main.rs` `write_resp_header`: id, flag byte, rcode byte, then the four
counts (question, answer, authority, additional) big-endian. -/
def write_resp_header (id : Nat) (rcode : Rcode) (isAA : Bool)
    (st : ReqHeaderStatus) (cnts : Nat × Nat × Nat × Nat) : List Nat :=
  u16be id ++ [flagByte st.opcode isAA st.rd, rcode.val] ++
  u16be cnts.1 ++ u16be cnts.2.1 ++ u16be cnts.2.2.1 ++ u16be cnts.2.2.2

/-- The resolution passes of `main.rs` `handle` (lines 181-200): exact/
fallback query, self-CNAME retry, nearer-NS override for delegation-relevant
types, and the final NS referral fallback. -/
def resolveQ (st : Storage) (segs : DName) (ty : Ty) : DName × List Record :=
  let r0 := query st segs ty
  let r1 :=
    if r0.2 = [] ∧ ty ≠ Ty.CNAME ∧ ty ≠ Ty.NS then query st segs Ty.CNAME
    else r0
  let r2 :=
    if r1.2 ≠ [] ∧ ty.needRecursive = true ∧ ty ≠ Ty.NS then
      let rns := query st segs Ty.NS
      if r1.1.length < rns.1.length then rns else r1
    else r1
  if r2.2 = [] ∧ ty ≠ Ty.NS then query st segs Ty.NS else r2

/-- `main.rs` `handle`, as a pure function from the zone database and the
datagram bytes to the reply bytes (`none` = no reply is sent). -/
def handle (st : Storage) (buf : List Nat) : Option (List Nat) :=
  match parse buf with
  | none =>
    if buf.length < 4 then none
    else
      match buf with
      | b0 :: b1 :: rest2 =>
        match parse_header_status rest2 with
        | some (_, hs) =>
            some (write_resp_header (b0 * 256 + b1) Rcode.Format true hs
                    (0, 0, 0, 0))
        | none => none
      | _ => none
  | some (_, parsed) =>
    match parsed.questions with
    | [q] =>
      if q.name.ptr.isSome then
        some (write_resp_header parsed.header.id Rcode.NotImpl true
                parsed.header.status (0, 0, 0, 0))
      else
        let segs := q.name.labels
        let res := resolveQ st segs q.ty
        let scope := res.1
        let answers := res.2
        let rcode := if answers = [] then Rcode.Name else Rcode.OK
        let is_ns : Bool :=
          match answers with
          | [] => false
          | a :: _ => a.inner.ty == Ty.NS
        some (write_resp_header parsed.header.id rcode (!is_ns)
                parsed.header.status
                (0, if is_ns then 0 else answers.length % 65536,
                 if is_ns then answers.length % 65536 else 0, 0) ++
              (answers.map fun a =>
                serialize_name scope ++ Record.serialize a).flatten)
    | _ =>
        some (write_resp_header parsed.header.id Rcode.NotImpl true
                parsed.header.status (0, 0, 0, 0))

/-! ### Lemmas about `query` -/

/-- The scope returned by `query` is always a suffix of the queried labels. -/
theorem query_scope_suffix (st : Storage) (segs : DName) (ty : Ty) :
    (query st segs ty).1 <:+ segs := by
  induction segs with
  | nil => simp [query]
  | cons seg rest ih =>
    simp only [query]
    split
    · exact ih.trans (List.suffix_cons seg rest)
    · exact List.suffix_refl _

/-- `query` only returns an empty scope on an empty input name. -/
theorem query_scope_nil (st : Storage) (segs : DName) (ty : Ty)
    (h : (query st segs ty).1 = []) : segs = [] := by
  induction segs with
  | nil => rfl
  | cons seg rest ih =>
    simp only [query] at h
    split at h
    · rename_i hc
      have := ih h
      subst this
      simp at hc
    · simp at h

/-- For a delegation-relevant type, an empty `query` result can only be
returned once at most one label remains. -/
theorem query_empty_short (st : Storage) (segs : DName) (ty : Ty)
    (hrec : ty.needRecursive = true) (h : (query st segs ty).2 = []) :
    (query st segs ty).1.length ≤ 1 := by
  induction segs with
  | nil => simp [query]
  | cons seg rest ih =>
    by_cases hc : ((query_all st (seg :: rest)).filter fun r => r.inner.ty == ty) = [] ∧
        ty.needRecursive = true ∧ 1 < (seg :: rest).length
    · rw [query, if_pos hc] at h ⊢
      exact ih h
    · rw [query, if_neg hc] at h ⊢
      simp only at h
      simp only [h, hrec, true_and, List.length_cons] at hc ⊢
      omega

/-! ### C1: delegation-nearest-NS override -/

/-- C1: for a question whose requested type is delegation-relevant (SOA or
NS) but not NS itself, if the first query pass returns a non-empty answer
set, the engine additionally computes `query(fullName, NS)`, and the NS
result replaces the current answer set and scope exactly when the NS
lookup's matched suffix has strictly more labels than the current scope. -/
theorem C1_delegation_override (st : Storage) (segs : DName) (ty : Ty)
    (h1 : ty.needRecursive = true) (h2 : ty ≠ Ty.NS)
    (h3 : (query st segs ty).2 ≠ []) :
    resolveQ st segs ty =
      if (query st segs ty).1.length < (query st segs Ty.NS).1.length
      then query st segs Ty.NS else query st segs ty := by
  have e1 : (if (query st segs ty).2 = [] ∧ ty ≠ Ty.CNAME ∧ ty ≠ Ty.NS
             then query st segs Ty.CNAME else query st segs ty) = query st segs ty :=
    if_neg fun hh => h3 hh.1
  unfold resolveQ
  dsimp only
  rw [e1, if_pos (show (query st segs ty).2 ≠ [] ∧ ty.needRecursive = true ∧ ty ≠ Ty.NS
        from ⟨h3, h1, h2⟩)]
  by_cases hcmp : (query st segs ty).1.length < (query st segs Ty.NS).1.length
  · rw [if_pos hcmp]
    split <;> rfl
  · rw [if_neg hcmp, if_neg fun hh => h3 hh.1]

/-- Witness for C1 on a concrete nested zone: an SOA at the ancestor
`b.c` and an NS at the full name `a.b.c`; the NS at the longer matched
suffix wins. -/
theorem C1_delegation_override_witness :
    resolveQ
        [([[98], [99]], [⟨.SOA 1 [] [] 0 0 0 0, 60⟩]),
         ([[97], [98], [99]], [⟨.NS [[110]], 60⟩])]
        [[97], [98], [99]] Ty.SOA =
      if (query [([[98], [99]], [⟨.SOA 1 [] [] 0 0 0 0, 60⟩]),
                 ([[97], [98], [99]], [⟨.NS [[110]], 60⟩])]
           [[97], [98], [99]] Ty.SOA).1.length <
         (query [([[98], [99]], [⟨.SOA 1 [] [] 0 0 0 0, 60⟩]),
                 ([[97], [98], [99]], [⟨.NS [[110]], 60⟩])]
           [[97], [98], [99]] Ty.NS).1.length
      then query [([[98], [99]], [⟨.SOA 1 [] [] 0 0 0 0, 60⟩]),
                  ([[97], [98], [99]], [⟨.NS [[110]], 60⟩])]
             [[97], [98], [99]] Ty.NS
      else query [([[98], [99]], [⟨.SOA 1 [] [] 0 0 0 0, 60⟩]),
                  ([[97], [98], [99]], [⟨.NS [[110]], 60⟩])]
             [[97], [98], [99]] Ty.SOA :=
  C1_delegation_override _ _ _ (by decide) (by decide) (by decide)

/-! ### C7: policy on datagrams that fail the full parse -/

/-- C7: when the full request parse fails, the handler answers with a
FormatError response built from the recovered id and flag byte-pair, with
all four count fields zero, provided at least 4 bytes are present and the
flag byte-pair parses on its own; otherwise it produces no reply. -/
theorem C7_parse_failure_policy (st : Storage) (buf : List Nat)
    (h : parse buf = none) :
    (buf.length < 4 → handle st buf = none) ∧
    (∀ b0 b1 rest2, buf = b0 :: b1 :: rest2 → 4 ≤ buf.length →
      (parse_header_status rest2 = none → handle st buf = none) ∧
      (∀ r hs, parse_header_status rest2 = some (r, hs) →
        handle st buf =
          some (write_resp_header (b0 * 256 + b1) Rcode.Format true hs
                  (0, 0, 0, 0)))) := by
  constructor
  · intro hlen
    simp [handle, h, hlen]
  · intro b0 b1 rest2 hbuf hlen
    subst hbuf
    have h4 : ¬ ((b0 :: b1 :: rest2).length < 4) := by omega
    constructor
    · intro hst
      simp [handle, h, h4, hst]
    · intro r hs hst
      simp [handle, h, h4, hst]
      simp only [List.length_cons] at hlen
      omega

/-- Witness for C7: a header announcing one additional record but carrying
none fails the parse; its flag byte-pair is parseable, so the handler
returns a FormatError response with zero counts. -/
theorem C7_parse_failure_policy_witness :
    handle [] [0, 1, 0, 0, 0, 0, 0, 0, 0, 0, 0, 1] =
      some (write_resp_header (0 * 256 + 1) Rcode.Format true
              ⟨false, .Query, false, false, false⟩ (0, 0, 0, 0)) :=
  ((C7_parse_failure_policy [] [0, 1, 0, 0, 0, 0, 0, 0, 0, 0, 0, 1]
      (by decide)).2 0 1 [0, 0, 0, 0, 0, 0, 0, 0, 0, 1] rfl (by decide)).2
    [0, 0, 0, 0, 0, 0, 0, 1] ⟨false, .Query, false, false, false⟩ (by decide)

/-! ### C8: unimplemented-feature policy -/

/-- C8: a successfully parsed request whose question count differs from 1,
or whose single question's name carries a captured compression pointer, is
answered with NotImplemented, the AA bit set, and all four counts zero; the
right-hand side does not mention the zone database, so no lookup result can
influence the reply. -/
theorem C8_not_implemented (st : Storage) (buf r : List Nat) (req : Req)
    (h : parse buf = some (r, req))
    (hcase : req.questions.length ≠ 1 ∨
             ∃ q, req.questions = [q] ∧ q.name.ptr.isSome = true) :
    handle st buf =
      some (write_resp_header req.header.id Rcode.NotImpl true
              req.header.status (0, 0, 0, 0)) := by
  rcases hql : req.questions with _ | ⟨q, _ | ⟨q2, qs⟩⟩
  · simp [handle, h, hql]
  · rcases hcase with hlen | ⟨q0, hq0, hptr⟩
    · rw [hql] at hlen
      simp at hlen
    · rw [hql] at hq0
      injection hq0 with hq0
      subst hq0
      simp [handle, h, hql, hptr]
  · simp [handle, h, hql]

/-- Witness for C8: a request with zero questions gets the NotImplemented
reply with zero counts. -/
theorem C8_not_implemented_witness :
    handle [] [0, 9, 0, 0, 0, 0, 0, 0, 0, 0, 0, 0] =
      some (write_resp_header 9 Rcode.NotImpl true
              ⟨false, .Query, false, false, false⟩ (0, 0, 0, 0)) :=
  C8_not_implemented [] [0, 9, 0, 0, 0, 0, 0, 0, 0, 0, 0, 0] []
    ⟨⟨9, ⟨false, .Query, false, false, false⟩, 0, 0⟩, [], []⟩
    (by decide) (Or.inl (by decide))

/-! ### C9: determinism of the per-datagram handler -/

/-- The handler's input/output relation: for a fixed zone database, the
datagram bytes determine the (possibly absent) reply bytes. -/
def Responds (st : Storage) (buf : List Nat) (out : Option (List Nat)) : Prop :=
  handle st buf = out

/-- C9: for a fixed zone database the handler is deterministic: two runs on
identical input byte sequences produce identical replies (or identically no
reply). -/
theorem C9_deterministic (st : Storage) (buf1 buf2 : List Nat)
    (out1 out2 : Option (List Nat)) (hb : buf1 = buf2)
    (h1 : Responds st buf1 out1) (h2 : Responds st buf2 out2) :
    out1 = out2 := by
  subst hb
  unfold Responds at h1 h2
  rw [← h1, ← h2]

/-- Witness for C9 on a concrete short datagram (dropped without reply). -/
theorem C9_deterministic_witness : (none : Option (List Nat)) = none :=
  C9_deterministic [] [1, 2] [1, 2] none none rfl (by rfl) (by rfl)

/-! ### C6: full-consumption contract of the top-level parse -/

/-- nom `count(p, n)` produces exactly `n` parsed items. -/
theorem countP_length {α : Type} (p : P α) :
    ∀ (n : Nat) (input r : List Nat) (xs : List α),
      countP p n input = some (r, xs) → xs.length = n := by
  intro n
  induction n with
  | zero =>
    intro input r xs h
    simp [countP] at h
    simp [h.2]
  | succ n ih =>
    intro input r xs h
    simp only [countP] at h
    split at h
    · exact absurd h (by simp)
    · split at h
      · exact absurd h (by simp)
      · rename_i i1 x hp i2 xs2 hc
        simp only [Option.some.injEq, Prod.mk.injEq] at h
        obtain ⟨-, hxs⟩ := h
        subst hxs
        simp [ih _ _ _ hc]

/-- C6: the top-level parse succeeds exactly on a header followed by
QDCOUNT questions and ARCOUNT additional records with no bytes left over:
on success nothing remains and the question/additional lists have exactly
the counted lengths, and any leftover bytes after `parse_request` make the
top-level parse fail. -/
theorem C6_full_consumption :
    (∀ (input r : List Nat) (req : Req), parse input = some (r, req) →
       r = [] ∧ parse_request input = some ([], req) ∧
       req.questions.length = req.header.qdcnt ∧
       req.additionals.length = req.header.arcnt) ∧
    (∀ (input r : List Nat) (req : Req), parse_request input = some (r, req) →
       r ≠ [] → parse input = none) := by
  have hcounts : ∀ (input r2 : List Nat) (req2 : Req),
      parse_request input = some (r2, req2) →
      req2.questions.length = req2.header.qdcnt ∧
      req2.additionals.length = req2.header.arcnt := by
    intro input r2 req2 hpr
    simp only [parse_request] at hpr
    split at hpr
    · exact absurd hpr (by simp)
    · rename_i i1 hdr hh
      split at hpr
      · exact absurd hpr (by simp)
      · rename_i i2 questions hq
        split at hpr
        · exact absurd hpr (by simp)
        · rename_i i3 additionals ha
          simp only [Option.some.injEq, Prod.mk.injEq] at hpr
          rw [← hpr.2]
          exact ⟨countP_length parse_question hdr.qdcnt i1 i2 questions hq,
                countP_length parse_rr hdr.arcnt i2 i3 additionals ha⟩
  constructor
  · intro input r req h
    unfold parse at h
    rcases hpr : parse_request input with _ | ⟨r2, req2⟩ <;> rw [hpr] at h
    · exact absurd h (by simp)
    · rcases r2 with _ | ⟨b, r2t⟩
      · simp only [Option.some.injEq, Prod.mk.injEq] at h
        obtain ⟨hr, hreq⟩ := h
        subst hr
        subst hreq
        exact ⟨rfl, rfl, hcounts input [] req2 hpr⟩
      · exact absurd h (by simp)
  · intro input r req h hr
    unfold parse
    rw [h]
    rcases r with _ | ⟨b, rt⟩
    · exact absurd rfl hr
    · rfl

/-- Witness for C6 on a concrete fully-consumed request with zero
questions and zero additional records. -/
theorem C6_full_consumption_witness :
    ([] : List Nat) = [] ∧
    parse_request [0, 9, 0, 0, 0, 0, 0, 0, 0, 0, 0, 0] =
      some ([], ⟨⟨9, ⟨false, .Query, false, false, false⟩, 0, 0⟩, [], []⟩) ∧
    ([] : List Question).length =
      (⟨⟨9, ⟨false, .Query, false, false, false⟩, 0, 0⟩, [], []⟩ : Req).header.qdcnt ∧
    ([] : List RR).length =
      (⟨⟨9, ⟨false, .Query, false, false, false⟩, 0, 0⟩, [], []⟩ : Req).header.arcnt :=
  C6_full_consumption.1 [0, 9, 0, 0, 0, 0, 0, 0, 0, 0, 0, 0] []
    ⟨⟨9, ⟨false, .Query, false, false, false⟩, 0, 0⟩, [], []⟩ (by decide)

/-! ### C3: header validation -/

/-- `OpCode.ofNat?` rejects every value above 2. -/
theorem OpCode.ofNat?_eq_none (n : Nat) (h : 3 ≤ n) : OpCode.ofNat? n = none := by
  obtain ⟨k, rfl⟩ : ∃ k, n = k + 3 := ⟨n - 3, by omega⟩
  rfl

/-- Characterization of `parse_header_status` on two flag bytes: it succeeds
exactly when the AA+TC bits, the RA+Z bits and RCODE are zero and the opcode
field is below 3, and then returns the decoded status flags. -/
theorem parse_header_status_eq (b1 b2 : Nat) (rest : List Nat) :
    parse_header_status (b1 :: b2 :: rest) =
      if b1 / 2 % 4 = 0 ∧ b2 / 64 % 4 = 0 ∧ b2 % 16 = 0 ∧ b1 / 8 % 16 < 3 then
        some (rest, ⟨b1 / 128 % 2 != 0,
                     (OpCode.ofNat? (b1 / 8 % 16)).getD OpCode.Query,
                     b1 % 2 != 0, b2 / 32 % 2 != 0, b2 / 16 % 2 != 0⟩)
      else none := by
  simp only [parse_header_status]
  by_cases hc : b1 / 2 % 4 = 0 ∧ b2 / 64 % 4 = 0 ∧ b2 % 16 = 0
  · rw [if_pos hc]
    by_cases hop : b1 / 8 % 16 < 3
    · rw [if_pos ⟨hc.1, hc.2.1, hc.2.2, hop⟩]
      have hv : b1 / 8 % 16 = 0 ∨ b1 / 8 % 16 = 1 ∨ b1 / 8 % 16 = 2 := by omega
      rcases hv with hv | hv | hv <;> rw [hv] <;> rfl
    · rw [if_neg (fun hh => hop hh.2.2.2),
          OpCode.ofNat?_eq_none (b1 / 8 % 16) (by omega)]
  · rw [if_neg hc, if_neg (fun hh => hc ⟨hh.1, hh.2.1, hh.2.2.1⟩)]

/-- C3: header decoding fails whenever the AA, TC, RA, Z or RCODE bits are
nonzero, the opcode field is outside 0..2, or the ANCOUNT/NSCOUNT bytes are
nonzero; on any 12-byte-or-longer input satisfying those constraints it
succeeds and returns the id, the status flags, QDCOUNT and ARCOUNT. -/
theorem C3_header_validation (i0 i1 b1 b2 q0 q1 a0 a1 n0 n1 r0 r1 : Nat)
    (rest : List Nat) (hb1 : b1 < 256) (hb2 : b2 < 256) :
    parse_header
        (i0 :: i1 :: b1 :: b2 :: q0 :: q1 :: a0 :: a1 :: n0 :: n1 :: r0 ::
          r1 :: rest) =
      if b1 / 2 % 4 = 0 ∧ b2 / 64 % 4 = 0 ∧ b2 % 16 = 0 ∧ b1 / 8 % 16 < 3 ∧
         a0 = 0 ∧ a1 = 0 ∧ n0 = 0 ∧ n1 = 0 then
        some (rest, ⟨i0 * 256 + i1,
          ⟨b1 / 128 % 2 != 0, (OpCode.ofNat? (b1 / 8 % 16)).getD OpCode.Query,
           b1 % 2 != 0, b2 / 32 % 2 != 0, b2 / 16 % 2 != 0⟩,
          q0 * 256 + q1, r0 * 256 + r1⟩)
      else none := by
  simp only [parse_header, be_u16p, parse_header_status_eq]
  by_cases hs : b1 / 2 % 4 = 0 ∧ b2 / 64 % 4 = 0 ∧ b2 % 16 = 0 ∧ b1 / 8 % 16 < 3
  · rw [if_pos hs]
    rcases a0 with _ | a0 <;> rcases a1 with _ | a1 <;>
      rcases n0 with _ | n0 <;> rcases n1 with _ | n1 <;>
      simp [tag00, hs.1, hs.2.1, hs.2.2.1, hs.2.2.2]
  · rw [if_neg hs]
    rw [if_neg (fun hh => hs ⟨hh.1, hh.2.1, hh.2.2.1, hh.2.2.2.1⟩)]

/-- Witness for C3 on a concrete well-formed header: id 5, RD set, opcode
Query, QDCOUNT 1, zero ANCOUNT/NSCOUNT/ARCOUNT. -/
theorem C3_header_validation_witness :
    parse_header [0, 5, 1, 0, 0, 1, 0, 0, 0, 0, 0, 0] =
      if (1 : Nat) / 2 % 4 = 0 ∧ (0 : Nat) / 64 % 4 = 0 ∧ (0 : Nat) % 16 = 0 ∧
         (1 : Nat) / 8 % 16 < 3 ∧ (0 : Nat) = 0 ∧ (0 : Nat) = 0 ∧
         (0 : Nat) = 0 ∧ (0 : Nat) = 0 then
        some (([] : List Nat), ⟨0 * 256 + 5,
          ⟨(1 : Nat) / 128 % 2 != 0,
           (OpCode.ofNat? ((1 : Nat) / 8 % 16)).getD OpCode.Query,
           (1 : Nat) % 2 != 0, (0 : Nat) / 32 % 2 != 0,
           (0 : Nat) / 16 % 2 != 0⟩,
          0 * 256 + 1, 0 * 256 + 0⟩)
      else none :=
  C3_header_validation 0 5 1 0 0 1 0 0 0 0 0 0 [] (by decide) (by decide)

/-! ### C4: shape of decoded names -/

/-- The wire grammar of an encoded name as consumed by `parse_name`: a
sequence of labels, each one length byte (1..255) followed by exactly that
many bytes, ended either by a zero byte (no pointer) or by a two-byte field
whose top two bits are 11, whose whole 16-bit value (top bits included, low
14 bits the pointer offset) is recorded as the pointer. -/
inductive NameBytes : List Nat → DName → Option Nat → Prop where
  | term_zero : NameBytes [0] [] none
  | term_ptr (a b : Nat) (ha : 192 ≤ a) (ha2 : a < 256) (hb : b < 256) :
      NameBytes [a, b] [] (some (a * 256 + b))
  | label (len : Nat) (bytes rest : List Nat) (labels : DName)
      (p : Option Nat) (h1 : 1 ≤ len) (h2 : len ≤ 255)
      (hlen : bytes.length = len) (htail : NameBytes rest labels p) :
      NameBytes (len :: bytes ++ rest) (bytes :: labels) p

/-- A recorded pointer always has its top two bits set (so its low 14 bits
are the offset of the compression pointer). -/
theorem NameBytes.ptr_top_bits {c : List Nat} {ls : DName} {p : Option Nat}
    (h : NameBytes c ls p) : ∀ v, p = some v → v / 16384 = 3 := by
  induction h with
  | term_zero => intro v hv; exact absurd hv (by simp)
  | term_ptr a b ha ha2 hb =>
    intro v hv
    obtain rfl : a * 256 + b = v := by injection hv
    omega
  | label len bytes rest labels p h1 h2 hlen htail ih => exact ih

/-- Inversion of the name terminator `parse_ptr`. -/
theorem parse_ptr_inv (input r : List Nat) (p : Option Nat)
    (h : parse_ptr input = some (r, p)) :
    (input = 0 :: r ∧ p = none) ∨
    (∃ a b, input = a :: b :: r ∧ (a * 256 + b) / 16384 = 3 ∧
            p = some (a * 256 + b)) := by
  match input with
  | [] => exact absurd h (by simp [parse_ptr])
  | 0 :: rest =>
    simp only [parse_ptr, Option.some.injEq, Prod.mk.injEq] at h
    exact Or.inl ⟨by rw [h.1], h.2.symm⟩
  | (a + 1) :: [] => exact absurd h (by simp [parse_ptr])
  | (a + 1) :: b :: rest =>
    simp only [parse_ptr] at h
    split at h
    · rename_i hcond
      simp only [Option.some.injEq, Prod.mk.injEq] at h
      exact Or.inr ⟨a + 1, b, by rw [h.1], hcond, h.2.symm⟩
    · exact absurd h (by simp)

/-- Inversion of `parse_label`. -/
theorem parse_label_inv (input r : List Nat) (lab : Label)
    (h : parse_label input = some (r, lab)) :
    ∃ cnt tail, input = cnt :: tail ∧ cnt ≤ tail.length ∧
      lab = tail.take cnt ∧ r = tail.drop cnt := by
  match input with
  | [] => exact absurd h (by simp [parse_label, be_u8p])
  | cnt :: tail =>
    by_cases hle : cnt ≤ tail.length
    · have he : parse_label (cnt :: tail) =
          some (tail.drop cnt, tail.take cnt) := by
        simp [parse_label, be_u8p, takeP, hle]
      rw [he] at h
      simp only [Option.some.injEq, Prod.mk.injEq] at h
      exact ⟨cnt, tail, rfl, hle, h.2.symm, h.1.symm⟩
    · have he : parse_label (cnt :: tail) = none := by
        simp [parse_label, be_u8p, takeP, hle]
      rw [he] at h
      exact absurd h (by simp)

/-- Soundness of the fueled name parser with respect to the wire grammar. -/
theorem parseNameF_sound :
    ∀ (fuel : Nat) (input rest : List Nat) (nm : Name),
      (∀ x ∈ input, x < 256) → parseNameF fuel input = some (rest, nm) →
      ∃ consumed, input = consumed ++ rest ∧
        NameBytes consumed nm.labels nm.ptr := by
  intro fuel
  induction fuel with
  | zero =>
    intro input rest nm hb h
    exact absurd h (by simp [parseNameF])
  | succ fuel ih =>
    intro input rest nm hb h
    simp only [parseNameF] at h
    split at h
    · rename_i r1 p hp
      simp only [Option.some.injEq, Prod.mk.injEq] at h
      obtain ⟨rfl, rfl⟩ := h
      rcases parse_ptr_inv input r1 p hp with ⟨hin, rfl⟩ | ⟨a, b, hin, hcond, rfl⟩
      · exact ⟨[0], hin, NameBytes.term_zero⟩
      · have ha : a < 256 := hb a (by rw [hin]; exact List.mem_cons_self a _)
        have hbb : b < 256 := hb b (by rw [hin]; simp)
        have ha192 : 192 ≤ a := by omega
        exact ⟨[a, b], hin, NameBytes.term_ptr a b ha192 ha hbb⟩
    · rename_i hp
      split at h
      · rename_i r1 lab hl
        split at h
        · rename_i rest2 nm2 hrec
          simp only [Option.some.injEq, Prod.mk.injEq] at h
          obtain ⟨rfl, rfl⟩ := h
          obtain ⟨cnt, tail, rfl, hle, rfl, rfl⟩ :=
            parse_label_inv _ _ _ hl
          have hcnt1 : 1 ≤ cnt := by
            rcases cnt with _ | c
            · exact absurd hp (by simp [parse_ptr])
            · omega
          have hcnt255 : cnt ≤ 255 := by
            have := hb cnt (List.mem_cons_self cnt tail)
            omega
          obtain ⟨consumed2, hsplit, hnb⟩ :=
            ih (tail.drop cnt) rest2 nm2
              (fun x hx => hb x (List.mem_cons_of_mem cnt
                (List.mem_of_mem_drop hx))) hrec
          refine ⟨cnt :: tail.take cnt ++ consumed2, ?_, ?_⟩
          · simp only [List.cons_append, List.append_assoc, ← hsplit,
              List.take_append_drop]
          · exact NameBytes.label cnt (tail.take cnt) consumed2 nm2.labels
              nm2.ptr hcnt1 hcnt255
              (by simp [List.length_take, Nat.min_eq_left hle]) hnb
        · exact absurd h (by simp)
      · exact absurd h (by simp)

/-- C4: whenever `parse_name` succeeds, the consumed bytes decompose into
length-prefixed labels (length byte 1..255, exactly that many raw bytes)
ended by a zero byte or a two-byte field with top bits 11 whose value is
recorded as the unresolved pointer; the pointer is never followed (parsing
stops right after the two-byte field), and any recorded pointer value has
its top two bits set, its low 14 bits being the captured offset. -/
theorem C4_name_decoding (input rest : List Nat) (nm : Name)
    (hb : ∀ x ∈ input, x < 256) (h : parse_name input = some (rest, nm)) :
    (∃ consumed, input = consumed ++ rest ∧
      NameBytes consumed nm.labels nm.ptr) ∧
    ∀ v, nm.ptr = some v → v / 16384 = 3 := by
  obtain ⟨consumed, hsplit, hnb⟩ :=
    parseNameF_sound (input.length + 1) input rest nm hb h
  exact ⟨⟨consumed, hsplit, hnb⟩, hnb.ptr_top_bits⟩

/-- Witness for C4: the name `abc` followed by a compression pointer to
offset 12 (bytes 192, 12). -/
theorem C4_name_decoding_witness :
    ((∃ consumed, ([3, 97, 98, 99, 192, 12] : List Nat) = consumed ++ [] ∧
       NameBytes consumed [[97, 98, 99]] (some 49164)) ∧
     ∀ v, (some 49164 : Option Nat) = some v → v / 16384 = 3) :=
  C4_name_decoding [3, 97, 98, 99, 192, 12] [] ⟨[[97, 98, 99]], some 49164⟩
    (by decide) (by decide)

/-! ### C5: encode/decode round trip for names -/

/-- A nonzero leading byte that does not open a compression pointer makes
the terminator parser fail. -/
theorem parse_ptr_nonzero (x y : Nat) (t : List Nat) (hx : x ≠ 0)
    (hcond : ¬ (x * 256 + y) / 16384 = 3) :
    parse_ptr (x :: y :: t) = none := by
  rcases x with _ | k
  · exact absurd rfl hx
  · simp [parse_ptr, hcond]

/-- Decoding an encoded label sequence (labels of byte length 1..191, bytes
below 256) recovers the labels, leaves the trailing bytes, and records no
pointer, for any sufficient fuel. -/
theorem parseNameF_serialize (labels : DName)
    (h : ∀ l ∈ labels, 1 ≤ l.length ∧ l.length ≤ 191 ∧ ∀ b ∈ l, b < 256) :
    ∀ (fuel : Nat) (rest : List Nat), labels.length + 1 ≤ fuel →
      parseNameF fuel
          ((labels.map fun l => (l.length % 256) :: l).flatten ++ 0 :: rest) =
        some (rest, ⟨labels, none⟩) := by
  induction labels with
  | nil =>
    intro fuel rest hfuel
    rcases fuel with _ | fuel
    · omega
    · simp [parseNameF, parse_ptr]
  | cons l ls ih =>
    intro fuel rest hfuel
    rcases fuel with _ | fuel
    · omega
    obtain ⟨hl1, hl191, hlb⟩ := h l (List.mem_cons_self l ls)
    have hmod : l.length % 256 = l.length := Nat.mod_eq_of_lt (by omega)
    rcases hl : l with _ | ⟨b0, lt⟩
    · rw [hl] at hl1; simp at hl1
    rw [← hl]
    have hb0 : b0 < 256 := hlb b0 (by rw [hl]; exact List.mem_cons_self _ _)
    have hshape :
        ((l :: ls).map fun l => (l.length % 256) :: l).flatten ++ 0 :: rest =
          l.length :: (l ++
            ((ls.map fun l => (l.length % 256) :: l).flatten ++ 0 :: rest)) := by
      simp [hmod, List.append_assoc]
    rw [hshape]
    have hR : l ++ ((ls.map fun l => (l.length % 256) :: l).flatten ++ 0 :: rest) =
        b0 :: (lt ++ ((ls.map fun l => (l.length % 256) :: l).flatten ++ 0 :: rest)) := by
      rw [hl]; rfl
    have hptr : parse_ptr (l.length :: (l ++
        ((ls.map fun l => (l.length % 256) :: l).flatten ++ 0 :: rest))) = none := by
      rw [hR]
      exact parse_ptr_nonzero l.length b0 _ (by omega) (by omega)
    have hlab : parse_label (l.length :: (l ++
        ((ls.map fun l => (l.length % 256) :: l).flatten ++ 0 :: rest))) =
        some ((ls.map fun l => (l.length % 256) :: l).flatten ++ 0 :: rest, l) := by
      simp [parse_label, be_u8p, takeP, List.take_left, List.drop_left]
    have hrec : parseNameF fuel
        ((ls.map fun l => (l.length % 256) :: l).flatten ++ 0 :: rest) =
        some (rest, ⟨ls, none⟩) :=
      ih (fun l2 hl2 => h l2 (List.mem_cons_of_mem l hl2)) fuel rest
        (by simp at hfuel ⊢; omega)
    simp [parseNameF, hptr, hlab, hrec]

/-- Counterexample to C5 as stated: the label sequence consisting of one
empty label does not survive the encode/decode round trip — the encoder
emits a bare zero length byte, which the decoder takes as the end-of-name
terminator. -/
theorem C5_roundtrip_counterexample :
    parse_name (serialize_name [[]]) ≠ some ([], ⟨[[]], none⟩) := by decide

/-- C5 (amended): for label sequences whose labels each have byte length
between 1 and 191 (nonempty, small enough for the length byte not to collide
with the compression-pointer tag) and bytes below 256, serializing then
decoding yields exactly the original labels, with no pointer recorded and
all bytes consumed. -/
theorem C5_roundtrip_amended (labels : DName)
    (h : ∀ l ∈ labels, 1 ≤ l.length ∧ l.length ≤ 191 ∧ ∀ b ∈ l, b < 256) :
    parse_name (serialize_name labels) = some ([], ⟨labels, none⟩) := by
  have hflat : labels.length ≤
      ((labels.map fun l => (l.length % 256) :: l).flatten).length := by
    clear h
    induction labels with
    | nil => simp
    | cons l ls ih =>
      simp only [List.map_cons, List.flatten_cons, List.length_append,
        List.length_cons]
      simp only [List.map_cons, List.flatten_cons, List.length_append,
        List.length_cons] at ih
      omega
  have hle : labels.length + 1 ≤ (serialize_name labels).length + 1 := by
    simp only [serialize_name, List.length_append]
    omega
  have h2 := parseNameF_serialize labels h ((serialize_name labels).length + 1)
    [] hle
  simpa [parse_name, serialize_name] using h2

/-- Witness for the amended C5 on the concrete name `www.com`. -/
theorem C5_roundtrip_amended_witness :
    parse_name (serialize_name [[119, 119, 119], [99, 111, 109]]) =
      some ([], ⟨[[119, 119, 119], [99, 111, 109]], none⟩) :=
  C5_roundtrip_amended [[119, 119, 119], [99, 111, 109]] (by decide)

/-! ### C2: response classification -/

/-- Reading a big-endian u16 field starting at byte offset `i`. -/
def getU16 (resp : List Nat) (i : Nat) : Option Nat :=
  match resp.get? i, resp.get? (i + 1) with
  | some a, some b => some (a * 256 + b)
  | _, _ => none

/-- The AA bit of the response flag byte is bit 2. -/
theorem flagByte_aa (op : OpCode) (aa rd : Bool) :
    flagByte op aa rd / 4 % 2 = if aa then 1 else 0 := by
  cases op <;> cases aa <;> cases rd <;> rfl

/-- Reassembling a u16 from its big-endian bytes. -/
theorem u16_reassemble (n : Nat) (h : n < 65536) :
    n / 256 % 256 * 256 + n % 256 = n := by omega

/-- C2: for every successfully parsed single-question request, the response
code byte is NameError exactly when the final answer set is empty and OK
otherwise; the AA bit is set unless the first answer record is an NS, in
which case AA is clear and the record count goes to the authority-count
field with the answer-count field zero. -/
theorem C2_response_classification (st : Storage) (buf : List Nat) (req : Req)
    (q : Question) (h : parse buf = some ([], req))
    (hq : req.questions = [q]) (hp : q.name.ptr = none) :
    ∃ resp, handle st buf = some resp ∧
      (let answers := (resolveQ st q.name.labels q.ty).2
       let is_ns : Bool :=
         match answers with
         | [] => false
         | a :: _ => a.inner.ty == Ty.NS
       resp.get? 3 =
         some (if answers = [] then Rcode.Name.val else Rcode.OK.val) ∧
       (resp.get? 2).map (fun b => b / 4 % 2) =
         some (if is_ns then 0 else 1) ∧
       getU16 resp 6 = some (if is_ns then 0 else answers.length % 65536) ∧
       getU16 resp 8 = some (if is_ns then answers.length % 65536 else 0)) := by
  have hh : handle st buf =
      some (write_resp_header req.header.id
              (if (resolveQ st q.name.labels q.ty).2 = [] then Rcode.Name
               else Rcode.OK)
              (!(match (resolveQ st q.name.labels q.ty).2 with
                 | [] => false
                 | a :: _ => a.inner.ty == Ty.NS))
              req.header.status
              (0,
               if (match (resolveQ st q.name.labels q.ty).2 with
                   | [] => false
                   | a :: _ => a.inner.ty == Ty.NS) = true then 0
               else (resolveQ st q.name.labels q.ty).2.length % 65536,
               if (match (resolveQ st q.name.labels q.ty).2 with
                   | [] => false
                   | a :: _ => a.inner.ty == Ty.NS) = true then
                 (resolveQ st q.name.labels q.ty).2.length % 65536
               else 0, 0) ++
            ((resolveQ st q.name.labels q.ty).2.map fun a =>
              serialize_name (resolveQ st q.name.labels q.ty).1 ++
                a.serialize).flatten) := by
    simp [handle, h, hq, hp]
  refine ⟨_, hh, ?_⟩
  rcases hans : (resolveQ st q.name.labels q.ty).2 with _ | ⟨a0, arest⟩
  · simp [write_resp_header, u16be, getU16, List.get?, flagByte_aa, Rcode.val]
  · by_cases hns : a0.inner.ty = Ty.NS
    · simp [write_resp_header, u16be, getU16, List.get?, flagByte_aa,
        Rcode.val, hns]
      omega
    · simp [write_resp_header, u16be, getU16, List.get?, flagByte_aa,
        Rcode.val, hns]
      omega

/-- Witness for C2: an A query for the name `a` against a zone holding a
single A record at `a`. -/
theorem C2_response_classification_witness :
    ∃ resp,
      handle [([[97]], [⟨.A [10, 0, 0, 1], 60⟩])]
          [0, 7, 1, 0, 0, 1, 0, 0, 0, 0, 0, 0, 1, 97, 0, 0, 1, 0, 1] =
        some resp ∧
      (let answers := (resolveQ [([[97]], [⟨.A [10, 0, 0, 1], 60⟩])]
          (⟨⟨[[97]], none⟩, Ty.A⟩ : Question).name.labels
          (⟨⟨[[97]], none⟩, Ty.A⟩ : Question).ty).2
       let is_ns : Bool :=
         match answers with
         | [] => false
         | a :: _ => a.inner.ty == Ty.NS
       resp.get? 3 =
         some (if answers = [] then Rcode.Name.val else Rcode.OK.val) ∧
       (resp.get? 2).map (fun b => b / 4 % 2) =
         some (if is_ns then 0 else 1) ∧
       getU16 resp 6 = some (if is_ns then 0 else answers.length % 65536) ∧
       getU16 resp 8 = some (if is_ns then answers.length % 65536 else 0)) :=
  C2_response_classification [([[97]], [⟨.A [10, 0, 0, 1], 60⟩])]
    [0, 7, 1, 0, 0, 1, 0, 0, 0, 0, 0, 0, 1, 97, 0, 0, 1, 0, 1]
    ⟨⟨7, ⟨false, .Query, true, false, false⟩, 1, 0⟩,
      [⟨⟨[[97]], none⟩, .A⟩], []⟩
    ⟨⟨[[97]], none⟩, .A⟩ (by decide) (by decide) (by decide)

/-! ### C10: owner names in the answer section -/

/-- The scope chosen by the resolution passes is a suffix of the queried
labels. -/
theorem resolveQ_scope_suffix (st : Storage) (segs : DName) (ty : Ty) :
    (resolveQ st segs ty).1 <:+ segs := by
  unfold resolveQ
  dsimp only
  repeat' split
  all_goals exact query_scope_suffix st segs _

/-- C10: the scope returned by `query` is always a suffix of the queried
label sequence, and a resolved question answered with OK serializes every
answer record with the matched scope — the suffix where the records were
found — as its owner name (so after ancestor fallback, the ancestor suffix
is written on the wire, not the full queried name). -/
theorem C10_owner_name_scope :
    (∀ (st : Storage) (segs : DName) (ty : Ty),
      (query st segs ty).1 <:+ segs) ∧
    (∀ (st : Storage) (buf : List Nat) (req : Req) (q : Question),
      parse buf = some ([], req) → req.questions = [q] → q.name.ptr = none →
      (resolveQ st q.name.labels q.ty).2 ≠ [] →
      (resolveQ st q.name.labels q.ty).1 <:+ q.name.labels ∧
      ∃ hdr, hdr.length = 12 ∧
        handle st buf = some (hdr ++
          ((resolveQ st q.name.labels q.ty).2.map fun a =>
            serialize_name (resolveQ st q.name.labels q.ty).1 ++
              Record.serialize a).flatten)) := by
  refine ⟨query_scope_suffix, ?_⟩
  intro st buf req q h hq hp hans
  refine ⟨resolveQ_scope_suffix st q.name.labels q.ty, ?_⟩
  refine ⟨write_resp_header req.header.id
      (if (resolveQ st q.name.labels q.ty).2 = [] then Rcode.Name
       else Rcode.OK)
      (!(match (resolveQ st q.name.labels q.ty).2 with
         | [] => false
         | a :: _ => a.inner.ty == Ty.NS))
      req.header.status
      (0,
       if (match (resolveQ st q.name.labels q.ty).2 with
           | [] => false
           | a :: _ => a.inner.ty == Ty.NS) = true then 0
       else (resolveQ st q.name.labels q.ty).2.length % 65536,
       if (match (resolveQ st q.name.labels q.ty).2 with
           | [] => false
           | a :: _ => a.inner.ty == Ty.NS) = true then
         (resolveQ st q.name.labels q.ty).2.length % 65536
       else 0, 0), ?_, ?_⟩
  · simp [write_resp_header, u16be]
  · simp [handle, h, hq, hp]

/-- Witness for C10: an SOA query for `b.c` against a zone holding the SOA
at the ancestor `c`; the records are found at the proper ancestor suffix. -/
theorem C10_owner_name_scope_witness :
    (resolveQ [([[99]], [⟨.SOA 1 [] [] 0 0 0 0, 60⟩])]
        (⟨⟨[[98], [99]], none⟩, Ty.SOA⟩ : Question).name.labels
        (⟨⟨[[98], [99]], none⟩, Ty.SOA⟩ : Question).ty).1 <:+
      (⟨⟨[[98], [99]], none⟩, Ty.SOA⟩ : Question).name.labels ∧
    ∃ hdr, hdr.length = 12 ∧
      handle [([[99]], [⟨.SOA 1 [] [] 0 0 0 0, 60⟩])]
          [0, 1, 0, 0, 0, 1, 0, 0, 0, 0, 0, 0, 1, 98, 1, 99, 0, 0, 6, 0, 1] =
        some (hdr ++
          ((resolveQ [([[99]], [⟨.SOA 1 [] [] 0 0 0 0, 60⟩])]
              (⟨⟨[[98], [99]], none⟩, Ty.SOA⟩ : Question).name.labels
              (⟨⟨[[98], [99]], none⟩, Ty.SOA⟩ : Question).ty).2.map fun a =>
            serialize_name
                (resolveQ [([[99]], [⟨.SOA 1 [] [] 0 0 0 0, 60⟩])]
                  (⟨⟨[[98], [99]], none⟩, Ty.SOA⟩ : Question).name.labels
                  (⟨⟨[[98], [99]], none⟩, Ty.SOA⟩ : Question).ty).1 ++
              Record.serialize a).flatten) :=
  C10_owner_name_scope.2 [([[99]], [⟨.SOA 1 [] [] 0 0 0 0, 60⟩])]
    [0, 1, 0, 0, 0, 1, 0, 0, 0, 0, 0, 0, 1, 98, 1, 99, 0, 0, 6, 0, 1]
    ⟨⟨1, ⟨false, .Query, false, false, false⟩, 1, 0⟩,
      [⟨⟨[[98], [99]], none⟩, .SOA⟩], []⟩
    ⟨⟨[[98], [99]], none⟩, .SOA⟩
    (by decide) (by decide) (by decide) (by decide)
